import Mathlib

/-!
# Verification of the TubeChain download pipeline

Shallow embedding of the TubeChain repository's pure logic:
the YouTube URL extractor (`src/hooks/useYoutube.tsx`), the thumbnail
selector (`src/lib/video/helpers`), the temp-file bookkeeping
(`src/lib/utils/file-system`), the download fallback chain
(`src/lib/video/downloader.ts`), the metadata fetcher, the POST
download route's file-recovery scan and the GET file route's
path sanitization.

Strings are embedded as `List Char`.  External effects (process
execution, network fetches, file reads/writes) are embedded as
environments recording each call site's outcome as an `Except`.
-/

namespace TubeChain

/-! ## ASCII case-insensitive character matching

The extractor's regular expressions carry the `i` flag and consist of
ASCII literals only, so case-insensitive matching is ASCII folding. -/

/-- ASCII case-insensitive character equality: equal code points, or one
is the upper-case ASCII letter of the other.  (Char equality coincides
with code-point equality.) -/
def ciEq (a b : Char) : Bool :=
  a.toNat == b.toNat
    || ((65 ≤ a.toNat && a.toNat ≤ 90) && b.toNat == a.toNat + 32)
    || ((65 ≤ b.toNat && b.toNat ≤ 90) && a.toNat == b.toNat + 32)

/-- The character set of a canonical YouTube video id:
ASCII letters, digits, `-` (45) and `_` (95). -/
def idChar (c : Char) : Bool :=
  (65 ≤ c.toNat && c.toNat ≤ 90) || (97 ≤ c.toNat && c.toNat ≤ 122)
    || (48 ≤ c.toNat && c.toNat ≤ 57) || c.toNat == 45 || c.toNat == 95

theorem ciEq_refl (a : Char) : ciEq a a = true := by
  simp [ciEq]

/-- A character whose code point is `=` (61) or `/` (47) is never
case-insensitively equal to an id character. -/
theorem ciEq_sep_false_of_idChar (x c : Char) (hx : x.toNat = 61 ∨ x.toNat = 47)
    (h : idChar c = true) : ciEq x c = false := by
  simp only [idChar, Bool.or_eq_true, Bool.and_eq_true, beq_iff_eq,
    decide_eq_true_eq] at h
  simp only [ciEq, Bool.or_eq_false_iff, Bool.and_eq_false_iff,
    beq_eq_false_iff_ne, ne_eq, decide_eq_false_iff_not, not_le]
  omega

/-! ## Case-insensitive prefix and substring search on `List Char` -/

/-- `ciStarts p s`: the pattern `p` matches at the head of `s`,
character-wise by `ciEq`. -/
def ciStarts : List Char → List Char → Bool
  | [], _ => true
  | _ :: _, [] => false
  | p :: ps, c :: cs => ciEq p c && ciStarts ps cs

/-- `ciHas p s`: the pattern `p` matches at some position of `s`. -/
def ciHas (p : List Char) : List Char → Bool
  | [] => ciStarts p []
  | c :: cs => ciStarts p (c :: cs) || ciHas p cs

@[simp] theorem ciStarts_nil (s : List Char) : ciStarts [] s = true := by
  cases s <;> rfl

@[simp] theorem ciStarts_cons_nil (p : Char) (ps : List Char) :
    ciStarts (p :: ps) [] = false := rfl

@[simp] theorem ciStarts_cons_cons (p c : Char) (ps cs : List Char) :
    ciStarts (p :: ps) (c :: cs) = (ciEq p c && ciStarts ps cs) := rfl

/-- A pattern always matches at the head of itself followed by anything. -/
theorem ciStarts_append_self (p t : List Char) : ciStarts p (p ++ t) = true := by
  induction p with
  | nil => simp
  | cons c cs ih => simp [ciEq_refl, ih]

/-- When the pattern fits inside the first part, an appended tail is
irrelevant to the match. -/
theorem ciStarts_append_of_le (p a b : List Char) (h : p.length ≤ a.length) :
    ciStarts p (a ++ b) = ciStarts p a := by
  induction p generalizing a with
  | nil => simp
  | cons c cs ih =>
    cases a with
    | nil => simp at h
    | cons x xs =>
      simp only [List.cons_append, ciStarts_cons_cons]
      rw [ih xs (by simpa using Nat.le_of_succ_le_succ h)]

/-- Character-wise consequence of a head match: every pattern position
pairs with the corresponding text character under `ciEq`. -/
theorem ciStarts_spec {p t : List Char} (h : ciStarts p t = true) (j : Nat)
    {cp : Char} (hj : p[j]? = some cp) :
    ∃ ct, t[j]? = some ct ∧ ciEq cp ct = true := by
  induction p generalizing t j with
  | nil => simp at hj
  | cons x xs ih =>
    cases t with
    | nil => simp [ciStarts] at h
    | cons y ys =>
      simp only [ciStarts_cons_cons, Bool.and_eq_true] at h
      cases j with
      | zero =>
        simp only [List.getElem?_cons_zero, Option.some.injEq] at hj
        exact ⟨y, by simp, hj ▸ h.1⟩
      | succ n =>
        simp only [List.getElem?_cons_succ] at hj ⊢
        exact ih h.2 n hj

/-- Dropping the first part of a matched concatenated pattern leaves a
match of the second part. -/
theorem ciStarts_drop_of_append {a b t : List Char}
    (h : ciStarts (a ++ b) t = true) : ciStarts b (t.drop a.length) = true := by
  induction a generalizing t with
  | nil => simpa using h
  | cons x xs ih =>
    cases t with
    | nil => simp [ciStarts] at h
    | cons y ys =>
      simp only [List.cons_append, ciStarts_cons_cons, Bool.and_eq_true] at h
      simpa using ih h.2

/-- A match at any dropped position witnesses a substring occurrence. -/
theorem ciHas_of_ciStarts_drop {p s : List Char} (q : Nat)
    (h : ciStarts p (s.drop q) = true) : ciHas p s = true := by
  induction s generalizing q with
  | nil => simpa [ciHas] using h
  | cons c cs ih =>
    cases q with
    | zero => simp only [List.drop_zero] at h; simp [ciHas, h]
    | succ n =>
      simp only [List.drop_succ_cons] at h
      simp [ciHas, ih n h]

/-! ## The video-id extractor (`extractVideoId`, `src/hooks/useYoutube.tsx`)

Each regular expression of the source has the shape
`(?:https?:\/\/)?(?:www\.)?CORE([^STOPS]+)` with the `i` flag: two
optional literal prefixes, a mandatory literal core, and a capture of
one or more characters outside a stop set.  `RxPat` records the core
and the stop set; `tryAt` is a match attempt at one position (the
optional groups are tried greedily, as the regex engine does); `scan`
is the engine's left-to-right search; `extractVideoId` tries the six
patterns in source order and returns the first capture. -/

/-- One of the extractor's regular expressions: mandatory literal core
and the capture's stop set. -/
structure RxPat where
  core : List Char
  stops : List Char

/-- The optional-prefix alternatives of `(?:https?:\/\/)?(?:www\.)?`,
in the regex engine's greedy backtracking order. -/
def optPres : List (List Char) :=
  ["https://www.".toList, "https://".toList, "http://www.".toList,
   "http://".toList, "www.".toList, []]

/-- Attempt a match of `pat` anchored at the head of `s`: some optional
prefix followed by the core must match, and the capture (`[^stops]+`)
must be non-empty.  Returns the captured group. -/
def tryAt (pat : RxPat) (s : List Char) : Option (List Char) :=
  optPres.findSome? fun pre =>
    if ciStarts (pre ++ pat.core) s then
      let cap := (s.drop (pre.length + pat.core.length)).takeWhile
        (fun c => !pat.stops.contains c)
      if cap.isEmpty then none else some cap
    else none

/-- Left-to-right regex search: first position where `tryAt` succeeds. -/
def scan (pat : RxPat) : List Char → Option (List Char)
  | [] => none
  | c :: cs =>
    match tryAt pat (c :: cs) with
    | some r => some r
    | none => scan pat cs

/-- The six URL patterns of `extractVideoId`, in source order:
watch, short-link, embed, `/v/`, shorts, live. -/
def watchPat : RxPat := ⟨"youtube.com/watch?v=".toList, ['&']⟩

def shortPat : RxPat := ⟨"youtu.be/".toList, ['?']⟩

def embedPat : RxPat := ⟨"youtube.com/embed/".toList, ['?']⟩

def vPathPat : RxPat := ⟨"youtube.com/v/".toList, ['?']⟩

def shortsPat : RxPat := ⟨"youtube.com/shorts/".toList, ['?', '&']⟩

def livePat : RxPat := ⟨"youtube.com/live/".toList, ['?', '&']⟩

def urlPats : List RxPat :=
  [watchPat, shortPat, embedPat, vPathPat, shortsPat, livePat]

/-- `extractVideoId` of `useYoutube.tsx`: try the patterns in order,
return the first (non-empty) capture, else `none`. -/
def extractVideoId (s : List Char) : Option (List Char) :=
  urlPats.findSome? fun pat => scan pat s

/-! ### No-match lemmas

A pattern whose core ends in a separator character (`=` or `/`) cannot
match inside a string `F ++ rest` whose tail `rest` consists of id
characters, unless the core already occurs inside `F`. -/

theorem ciStarts_core_false (pat : RxPat) (pre F rest : List Char) (n : Nat)
    (x : Char) (hlast : pat.core.getLast? = some x)
    (hx : ∀ c, idChar c = true → ciEq x c = false)
    (hrest : ∀ c ∈ rest, idChar c = true)
    (hsub : ciHas pat.core F = false) :
    ciStarts (pre ++ pat.core) ((F ++ rest).drop n) = false := by
  by_contra hne
  have h : ciStarts (pre ++ pat.core) ((F ++ rest).drop n) = true := by
    cases hcs : ciStarts (pre ++ pat.core) ((F ++ rest).drop n)
    · exact absurd hcs hne
    · rfl
  have hcore_ne : pat.core ≠ [] := by
    intro hc; rw [hc] at hlast; simp at hlast
  have hcl : 1 ≤ pat.core.length := by
    cases hc : pat.core with
    | nil => exact absurd hc hcore_ne
    | cons a l => simp [hc]
  -- the last character of `pre ++ core` is the separator `x`
  set j := pre.length + pat.core.length - 1 with hj
  have hjx : (pre ++ pat.core)[j]? = some x := by
    have h1 : (pre ++ pat.core).getLast? = some x := by
      rw [List.getLast?_append, hlast]; rfl
    rw [List.getLast?_eq_getElem?] at h1
    simpa [hj, List.length_append] using h1
  obtain ⟨ct, hct, hcx⟩ := ciStarts_spec h j hjx
  rw [List.getElem?_drop] at hct
  by_cases hcase : n + j < F.length
  · -- the whole core sits inside `F`: contradicts `hsub`
    have h2 : ciStarts pat.core (((F ++ rest).drop n).drop pre.length) = true :=
      ciStarts_drop_of_append h
    rw [List.drop_drop] at h2
    have hqle : n + pre.length + pat.core.length ≤ F.length := by omega
    rw [List.drop_append_of_le_length (by omega)] at h2
    rw [ciStarts_append_of_le _ _ _ (by simp; omega)] at h2
    have := ciHas_of_ciStarts_drop (n + pre.length) h2
    rw [hsub] at this
    exact absurd this (by simp)
  · -- the separator would have to match an id character of `rest`
    have h3 : (F ++ rest)[n + j]? = rest[n + j - F.length]? :=
      List.getElem?_append_right (by omega)
    rw [h3] at hct
    have hmem : ct ∈ rest := by
      obtain ⟨hlt, hget⟩ := List.getElem?_eq_some_iff.mp hct
      exact hget ▸ List.getElem_mem hlt
    have := hx ct (hrest ct hmem)
    rw [this] at hcx
    exact absurd hcx (by simp)

theorem tryAt_eq_none (pat : RxPat) (F rest : List Char) (n : Nat) (x : Char)
    (hlast : pat.core.getLast? = some x)
    (hx : ∀ c, idChar c = true → ciEq x c = false)
    (hrest : ∀ c ∈ rest, idChar c = true)
    (hsub : ciHas pat.core F = false) :
    tryAt pat ((F ++ rest).drop n) = none := by
  rw [tryAt, List.findSome?_eq_none_iff]
  intro pre _
  rw [ciStarts_core_false pat pre F rest n x hlast hx hrest hsub]
  rfl

theorem scan_eq_none_aux (pat : RxPat) :
    ∀ s : List Char, (∀ k, tryAt pat (s.drop k) = none) → scan pat s = none := by
  intro s
  induction s with
  | nil => intro _; rfl
  | cons c cs ih =>
    intro hall
    have h0 := hall 0
    rw [List.drop_zero] at h0
    rw [scan, h0]
    exact ih fun k => by
      have := hall (k + 1)
      simpa [List.drop_succ_cons] using this

/-- Master no-match lemma: a separator-terminated pattern whose core
does not occur in `F` never matches anywhere in `F ++ rest` when `rest`
is made of id characters. -/
theorem scan_eq_none (pat : RxPat) (F rest : List Char) (x : Char)
    (hlast : pat.core.getLast? = some x)
    (hx : ∀ c, idChar c = true → ciEq x c = false)
    (hrest : ∀ c ∈ rest, idChar c = true)
    (hsub : ciHas pat.core F = false) :
    scan pat (F ++ rest) = none := by
  refine scan_eq_none_aux pat (F ++ rest) fun k => ?_
  exact tryAt_eq_none pat F rest k x hlast hx hrest hsub

/-! ### Positive-match lemmas -/

theorem findSome?_cons_some {α β : Type} {f : α → Option β} {a : α}
    {l : List α} {b : β} (h : f a = some b) :
    List.findSome? f (a :: l) = some b := by
  rw [List.findSome?_cons, h]

theorem findSome?_cons_none {α β : Type} {f : α → Option β} {a : α}
    {l : List α} (h : f a = none) :
    List.findSome? f (a :: l) = List.findSome? f l := by
  rw [List.findSome?_cons, h]

/-- A mismatch at one position inside the fixed part refutes a match. -/
theorem ciStarts_false_of_mismatch (p a b : List Char) (j : Nat) (cp ca : Char)
    (hp : p[j]? = some cp) (ha : a[j]? = some ca) (hne : ciEq cp ca = false) :
    ciStarts p (a ++ b) = false := by
  by_contra hcon
  have h : ciStarts p (a ++ b) = true := by
    cases hcs : ciStarts p (a ++ b)
    · exact absurd hcs hcon
    · rfl
  obtain ⟨ct, hct, hcx⟩ := ciStarts_spec h j hp
  have hja : j < a.length := by
    obtain ⟨hlt, _⟩ := List.getElem?_eq_some_iff.mp ha
    exact hlt
  rw [List.getElem?_append_left hja, ha] at hct
  cases hct
  rw [hne] at hcx
  exact absurd hcx (by simp)

/-- An id character is not one of the capture stop characters. -/
theorem idChar_not_stop (c : Char) (h : idChar c = true) :
    (c == '&') = false ∧ (c == '?') = false := by
  constructor
  · cases hbe : c == '&'
    · rfl
    · exfalso
      have : c = '&' := by exact beq_iff_eq.mp hbe
      subst this
      simp [idChar] at h
  · cases hbe : c == '?'
    · rfl
    · exfalso
      have : c = '?' := by exact beq_iff_eq.mp hbe
      subst this
      simp [idChar] at h

theorem takeWhile_id_of_idChars (st : List Char) (id : List Char)
    (hst : st = ['&'] ∨ st = ['?'] ∨ st = ['?', '&'])
    (hid : ∀ c ∈ id, idChar c = true) :
    id.takeWhile (fun c => !st.contains c) = id := by
  rw [List.takeWhile_eq_self_iff]
  intro c hc
  obtain ⟨h1, h2⟩ := idChar_not_stop c (hid c hc)
  rw [beq_eq_false_iff_ne] at h1 h2
  rcases hst with h | h | h <;>
    simp [h, List.contains, List.elem, h1, h2]

theorem scan_of_tryAt_some {pat : RxPat} {s : List Char} {r : List Char}
    (hs : s ≠ []) (h : tryAt pat s = some r) : scan pat s = some r := by
  cases s with
  | nil => exact absurd rfl hs
  | cons c cs => rw [scan, h]

/-! ### The six canonical URL shapes

Each shape is the spelled-out URL with the id appended: e.g.
`watchUrl id = "https://www.youtube.com/watch?v=" ++ id`, written as
prefix-plus-core so the pattern literals appear once. -/

/-- Canonical watch URL `https://www.youtube.com/watch?v=ID`. -/
def watchUrl (id : List Char) : List Char :=
  "https://www.".toList ++ watchPat.core ++ id

/-- Short-link URL `https://youtu.be/ID`. -/
def shortUrl (id : List Char) : List Char :=
  "https://".toList ++ shortPat.core ++ id

/-- Embed URL `https://www.youtube.com/embed/ID`. -/
def embedUrl (id : List Char) : List Char :=
  "https://www.".toList ++ embedPat.core ++ id

/-- Bare-path URL `https://www.youtube.com/v/ID`. -/
def vPathUrl (id : List Char) : List Char :=
  "https://www.".toList ++ vPathPat.core ++ id

/-- Shorts URL `https://www.youtube.com/shorts/ID`. -/
def shortsUrl (id : List Char) : List Char :=
  "https://www.".toList ++ shortsPat.core ++ id

/-- Live URL `https://www.youtube.com/live/ID`. -/
def liveUrl (id : List Char) : List Char :=
  "https://www.".toList ++ livePat.core ++ id

theorem scan_watch_pos (id : List Char) (hne : id ≠ [])
    (hid : ∀ c ∈ id, idChar c = true) :
    scan watchPat (watchUrl id) = some id := by
  have hemp : id.isEmpty = false := by
    cases id with
    | nil => exact absurd rfl hne
    | cons a l => rfl
  have hne' : watchUrl id ≠ [] := by
    rw [watchUrl]
    simp
  refine scan_of_tryAt_some hne' ?_
  rw [watchUrl, tryAt, optPres]
  refine findSome?_cons_some ?_
  have hcond : ciStarts ("https://www.".toList ++ watchPat.core)
      ("https://www.".toList ++ watchPat.core ++ id) = true :=
    ciStarts_append_self _ id
  have hdrop : ("https://www.".toList ++ watchPat.core ++ id).drop
      ("https://www.".toList.length + watchPat.core.length) = id := by
    rw [← List.length_append]
    exact List.drop_left _ _
  have htake := takeWhile_id_of_idChars watchPat.stops id (Or.inl rfl) hid
  simp only [hcond, if_true, hdrop, htake, hemp, Bool.false_eq_true,
    if_false]

theorem scan_short_pos (id : List Char) (hne : id ≠ [])
    (hid : ∀ c ∈ id, idChar c = true) :
    scan shortPat (shortUrl id) = some id := by
  have hemp : id.isEmpty = false := by
    cases id with
    | nil => exact absurd rfl hne
    | cons a l => rfl
  have hne' : shortUrl id ≠ [] := by
    rw [shortUrl]
    simp
  refine scan_of_tryAt_some hne' ?_
  rw [shortUrl, tryAt, optPres]
  -- the greedy prefix `https://www.` fails: position 8 reads `y`, not `w`
  have hmis : ciStarts ("https://www.".toList ++ shortPat.core)
      (("https://".toList ++ shortPat.core) ++ id) = false := by
    refine ciStarts_false_of_mismatch _ _ id 8 'w' 'y' (by decide) (by decide)
      (by decide)
  rw [List.findSome?_cons]
  simp only [List.append_assoc] at hmis
  simp only [hmis, Bool.false_eq_true, if_false]
  refine findSome?_cons_some ?_
  have hcond : ciStarts ("https://".toList ++ shortPat.core)
      ("https://".toList ++ shortPat.core ++ id) = true :=
    ciStarts_append_self _ id
  have hdrop : ("https://".toList ++ shortPat.core ++ id).drop
      ("https://".toList.length + shortPat.core.length) = id := by
    rw [← List.length_append]
    exact List.drop_left _ _
  have htake := takeWhile_id_of_idChars shortPat.stops id (Or.inr (Or.inl rfl))
    hid
  simp only [hcond, if_true, hdrop, htake, hemp, Bool.false_eq_true,
    if_false]

theorem scan_embed_pos (id : List Char) (hne : id ≠ [])
    (hid : ∀ c ∈ id, idChar c = true) :
    scan embedPat (embedUrl id) = some id := by
  have hemp : id.isEmpty = false := by
    cases id with
    | nil => exact absurd rfl hne
    | cons a l => rfl
  have hne' : embedUrl id ≠ [] := by
    rw [embedUrl]
    simp
  refine scan_of_tryAt_some hne' ?_
  rw [embedUrl, tryAt, optPres]
  refine findSome?_cons_some ?_
  have hcond : ciStarts ("https://www.".toList ++ embedPat.core)
      ("https://www.".toList ++ embedPat.core ++ id) = true :=
    ciStarts_append_self _ id
  have hdrop : ("https://www.".toList ++ embedPat.core ++ id).drop
      ("https://www.".toList.length + embedPat.core.length) = id := by
    rw [← List.length_append]
    exact List.drop_left _ _
  have htake := takeWhile_id_of_idChars embedPat.stops id (Or.inr (Or.inl rfl))
    hid
  simp only [hcond, if_true, hdrop, htake, hemp, Bool.false_eq_true,
    if_false]

theorem scan_vPath_pos (id : List Char) (hne : id ≠ [])
    (hid : ∀ c ∈ id, idChar c = true) :
    scan vPathPat (vPathUrl id) = some id := by
  have hemp : id.isEmpty = false := by
    cases id with
    | nil => exact absurd rfl hne
    | cons a l => rfl
  have hne' : vPathUrl id ≠ [] := by
    rw [vPathUrl]
    simp
  refine scan_of_tryAt_some hne' ?_
  rw [vPathUrl, tryAt, optPres]
  refine findSome?_cons_some ?_
  have hcond : ciStarts ("https://www.".toList ++ vPathPat.core)
      ("https://www.".toList ++ vPathPat.core ++ id) = true :=
    ciStarts_append_self _ id
  have hdrop : ("https://www.".toList ++ vPathPat.core ++ id).drop
      ("https://www.".toList.length + vPathPat.core.length) = id := by
    rw [← List.length_append]
    exact List.drop_left _ _
  have htake := takeWhile_id_of_idChars vPathPat.stops id (Or.inr (Or.inl rfl))
    hid
  simp only [hcond, if_true, hdrop, htake, hemp, Bool.false_eq_true,
    if_false]

theorem scan_shorts_pos (id : List Char) (hne : id ≠ [])
    (hid : ∀ c ∈ id, idChar c = true) :
    scan shortsPat (shortsUrl id) = some id := by
  have hemp : id.isEmpty = false := by
    cases id with
    | nil => exact absurd rfl hne
    | cons a l => rfl
  have hne' : shortsUrl id ≠ [] := by
    rw [shortsUrl]
    simp
  refine scan_of_tryAt_some hne' ?_
  rw [shortsUrl, tryAt, optPres]
  refine findSome?_cons_some ?_
  have hcond : ciStarts ("https://www.".toList ++ shortsPat.core)
      ("https://www.".toList ++ shortsPat.core ++ id) = true :=
    ciStarts_append_self _ id
  have hdrop : ("https://www.".toList ++ shortsPat.core ++ id).drop
      ("https://www.".toList.length + shortsPat.core.length) = id := by
    rw [← List.length_append]
    exact List.drop_left _ _
  have htake := takeWhile_id_of_idChars shortsPat.stops id (Or.inr (Or.inr rfl))
    hid
  simp only [hcond, if_true, hdrop, htake, hemp, Bool.false_eq_true,
    if_false]

theorem scan_live_pos (id : List Char) (hne : id ≠ [])
    (hid : ∀ c ∈ id, idChar c = true) :
    scan livePat (liveUrl id) = some id := by
  have hemp : id.isEmpty = false := by
    cases id with
    | nil => exact absurd rfl hne
    | cons a l => rfl
  have hne' : liveUrl id ≠ [] := by
    rw [liveUrl]
    simp
  refine scan_of_tryAt_some hne' ?_
  rw [liveUrl, tryAt, optPres]
  refine findSome?_cons_some ?_
  have hcond : ciStarts ("https://www.".toList ++ livePat.core)
      ("https://www.".toList ++ livePat.core ++ id) = true :=
    ciStarts_append_self _ id
  have hdrop : ("https://www.".toList ++ livePat.core ++ id).drop
      ("https://www.".toList.length + livePat.core.length) = id := by
    rw [← List.length_append]
    exact List.drop_left _ _
  have htake := takeWhile_id_of_idChars livePat.stops id (Or.inr (Or.inr rfl))
    hid
  simp only [hcond, if_true, hdrop, htake, hemp, Bool.false_eq_true,
    if_false]

/-! ### Assembling `extractVideoId` on each shape -/

theorem ciEq_eqsign_false (c : Char) (h : idChar c = true) :
    ciEq '=' c = false :=
  ciEq_sep_false_of_idChar '=' c (Or.inl (by decide)) h

theorem ciEq_slash_false (c : Char) (h : idChar c = true) :
    ciEq '/' c = false :=
  ciEq_sep_false_of_idChar '/' c (Or.inr (by decide)) h

theorem extract_watch (id : List Char) (hne : id ≠ [])
    (hid : ∀ c ∈ id, idChar c = true) :
    extractVideoId (watchUrl id) = some id := by
  rw [extractVideoId, urlPats]
  exact findSome?_cons_some (scan_watch_pos id hne hid)

theorem extract_short (id : List Char) (hne : id ≠ [])
    (hid : ∀ c ∈ id, idChar c = true) :
    extractVideoId (shortUrl id) = some id := by
  have h1 : scan watchPat (shortUrl id) = none := by
    rw [shortUrl]
    exact scan_eq_none watchPat _ id '=' (by decide)
      (fun c h => ciEq_eqsign_false c h) hid (by decide)
  rw [extractVideoId, urlPats]
  simp only [List.findSome?_cons, h1, scan_short_pos id hne hid]

theorem extract_embed (id : List Char) (hne : id ≠ [])
    (hid : ∀ c ∈ id, idChar c = true) :
    extractVideoId (embedUrl id) = some id := by
  have h1 : scan watchPat (embedUrl id) = none := by
    rw [embedUrl]
    exact scan_eq_none watchPat _ id '=' (by decide)
      (fun c h => ciEq_eqsign_false c h) hid (by decide)
  have h2 : scan shortPat (embedUrl id) = none := by
    rw [embedUrl]
    exact scan_eq_none shortPat _ id '/' (by decide)
      (fun c h => ciEq_slash_false c h) hid (by decide)
  rw [extractVideoId, urlPats]
  simp only [List.findSome?_cons, h1, h2, scan_embed_pos id hne hid]

theorem extract_vPath (id : List Char) (hne : id ≠ [])
    (hid : ∀ c ∈ id, idChar c = true) :
    extractVideoId (vPathUrl id) = some id := by
  have h1 : scan watchPat (vPathUrl id) = none := by
    rw [vPathUrl]
    exact scan_eq_none watchPat _ id '=' (by decide)
      (fun c h => ciEq_eqsign_false c h) hid (by decide)
  have h2 : scan shortPat (vPathUrl id) = none := by
    rw [vPathUrl]
    exact scan_eq_none shortPat _ id '/' (by decide)
      (fun c h => ciEq_slash_false c h) hid (by decide)
  have h3 : scan embedPat (vPathUrl id) = none := by
    rw [vPathUrl]
    exact scan_eq_none embedPat _ id '/' (by decide)
      (fun c h => ciEq_slash_false c h) hid (by decide)
  rw [extractVideoId, urlPats]
  simp only [List.findSome?_cons, h1, h2, h3, scan_vPath_pos id hne hid]

theorem extract_shorts (id : List Char) (hne : id ≠ [])
    (hid : ∀ c ∈ id, idChar c = true) :
    extractVideoId (shortsUrl id) = some id := by
  have h1 : scan watchPat (shortsUrl id) = none := by
    rw [shortsUrl]
    exact scan_eq_none watchPat _ id '=' (by decide)
      (fun c h => ciEq_eqsign_false c h) hid (by decide)
  have h2 : scan shortPat (shortsUrl id) = none := by
    rw [shortsUrl]
    exact scan_eq_none shortPat _ id '/' (by decide)
      (fun c h => ciEq_slash_false c h) hid (by decide)
  have h3 : scan embedPat (shortsUrl id) = none := by
    rw [shortsUrl]
    exact scan_eq_none embedPat _ id '/' (by decide)
      (fun c h => ciEq_slash_false c h) hid (by decide)
  have h4 : scan vPathPat (shortsUrl id) = none := by
    rw [shortsUrl]
    exact scan_eq_none vPathPat _ id '/' (by decide)
      (fun c h => ciEq_slash_false c h) hid (by decide)
  rw [extractVideoId, urlPats]
  simp only [List.findSome?_cons, h1, h2, h3, h4, scan_shorts_pos id hne hid]

theorem extract_live (id : List Char) (hne : id ≠ [])
    (hid : ∀ c ∈ id, idChar c = true) :
    extractVideoId (liveUrl id) = some id := by
  have h1 : scan watchPat (liveUrl id) = none := by
    rw [liveUrl]
    exact scan_eq_none watchPat _ id '=' (by decide)
      (fun c h => ciEq_eqsign_false c h) hid (by decide)
  have h2 : scan shortPat (liveUrl id) = none := by
    rw [liveUrl]
    exact scan_eq_none shortPat _ id '/' (by decide)
      (fun c h => ciEq_slash_false c h) hid (by decide)
  have h3 : scan embedPat (liveUrl id) = none := by
    rw [liveUrl]
    exact scan_eq_none embedPat _ id '/' (by decide)
      (fun c h => ciEq_slash_false c h) hid (by decide)
  have h4 : scan vPathPat (liveUrl id) = none := by
    rw [liveUrl]
    exact scan_eq_none vPathPat _ id '/' (by decide)
      (fun c h => ciEq_slash_false c h) hid (by decide)
  have h5 : scan shortsPat (liveUrl id) = none := by
    rw [liveUrl]
    exact scan_eq_none shortsPat _ id '/' (by decide)
      (fun c h => ciEq_slash_false c h) hid (by decide)
  rw [extractVideoId, urlPats]
  simp only [List.findSome?_cons, h1, h2, h3, h4, h5, scan_live_pos id hne hid]

/-! ### Scan failure when no core occurs at all -/

theorem scan_none_of_not_ciHas (pat : RxPat) (s : List Char)
    (h : ciHas pat.core s = false) : scan pat s = none := by
  refine scan_eq_none_aux pat s fun k => ?_
  rw [tryAt, List.findSome?_eq_none_iff]
  intro pre _
  have hcs : ciStarts (pre ++ pat.core) (s.drop k) = false := by
    by_contra hcon
    have htrue : ciStarts (pre ++ pat.core) (s.drop k) = true := by
      cases hv : ciStarts (pre ++ pat.core) (s.drop k)
      · exact absurd hv hcon
      · rfl
    have h2 := ciStarts_drop_of_append htrue
    rw [List.drop_drop] at h2
    have h3 := ciHas_of_ciStarts_drop (k + pre.length) h2
    rw [h] at h3
    exact absurd h3 (by simp)
  rw [hcs]
  rfl

/-! ### The spec's host notion (refinement comparison for C8)

`hostOf` follows the spec's words, not the source: the Extractor is
said to fail whenever "the domain is not a recognized host".  The
source has no host parsing, so this definition exists only to compare
the spec's statement with what `extractVideoId` actually does. -/

/-- Remainder of `s` after the first occurrence of `lit`. -/
def afterLit (lit : List Char) : List Char → Option (List Char)
  | [] => if lit.isEmpty then some [] else none
  | c :: cs =>
    if lit.isPrefixOf (c :: cs) then some ((c :: cs).drop lit.length)
    else afterLit lit cs

/-- Modelled from the spec: the host (authority) of a URL — the
characters after the first `://` and before the next `/`, `?`, `#`
or `:`. -/
def hostOf (s : List Char) : Option (List Char) :=
  (afterLit "://".toList s).map fun r =>
    r.takeWhile fun c => !(c == '/' || c == '?' || c == '#' || c == ':')

/-- Modelled from the spec: the hosts the Extractor is supposed to
recognize (the domains appearing in its patterns). -/
def recognizedHost (h : List Char) : Bool :=
  ["youtube.com".toList, "www.youtube.com".toList, "youtu.be".toList,
   "www.youtu.be".toList].contains h

/-! ## Claim C7 and C8 theorems -/

/-- C7: embedding the same canonical 11-character video id in each of
the six recognized URL shapes (watch, short-link, embed, `/v/`,
shorts, live) and applying `extractVideoId` yields that id in every
case — the patterns are tried in a fixed order, so each shape resolves
deterministically to the same identifier. -/
theorem extractVideoId_uniform_shapes (id : List Char) (hlen : id.length = 11)
    (hid : ∀ c ∈ id, idChar c = true) :
    extractVideoId (watchUrl id) = some id
      ∧ extractVideoId (shortUrl id) = some id
      ∧ extractVideoId (embedUrl id) = some id
      ∧ extractVideoId (vPathUrl id) = some id
      ∧ extractVideoId (shortsUrl id) = some id
      ∧ extractVideoId (liveUrl id) = some id := by
  have hne : id ≠ [] := by
    intro h
    rw [h] at hlen
    simp at hlen
  exact ⟨extract_watch id hne hid, extract_short id hne hid,
    extract_embed id hne hid, extract_vPath id hne hid,
    extract_shorts id hne hid, extract_live id hne hid⟩

/-- Witness for C7 at the id `dQw4w9WgXcQ`. -/
theorem extractVideoId_uniform_shapes_witness :
    extractVideoId (watchUrl "dQw4w9WgXcQ".toList) = some "dQw4w9WgXcQ".toList
      ∧ extractVideoId (shortUrl "dQw4w9WgXcQ".toList)
          = some "dQw4w9WgXcQ".toList
      ∧ extractVideoId (embedUrl "dQw4w9WgXcQ".toList)
          = some "dQw4w9WgXcQ".toList
      ∧ extractVideoId (vPathUrl "dQw4w9WgXcQ".toList)
          = some "dQw4w9WgXcQ".toList
      ∧ extractVideoId (shortsUrl "dQw4w9WgXcQ".toList)
          = some "dQw4w9WgXcQ".toList
      ∧ extractVideoId (liveUrl "dQw4w9WgXcQ".toList)
          = some "dQw4w9WgXcQ".toList :=
  extractVideoId_uniform_shapes "dQw4w9WgXcQ".toList (by decide) (by decide)

/-- C8 counterexample: the claim says a non-null identifier is returned
only when the domain is a recognized host, but the patterns are
unanchored substring searches — a URL whose host is `evil.example`
still yields an id because the watch-pattern literal occurs later in
the path. -/
theorem extractVideoId_unrecognized_host_counterexample :
    extractVideoId "https://evil.example/youtube.com/watch?v=dQw4w9WgXcQ".toList
        = some "dQw4w9WgXcQ".toList
      ∧ hostOf "https://evil.example/youtube.com/watch?v=dQw4w9WgXcQ".toList
          = some "evil.example".toList
      ∧ recognizedHost "evil.example".toList = false := by
  refine ⟨by decide, by decide, by decide⟩

/-- C8 (amended): `extractVideoId` returns null for every string in
which no pattern core occurs (in particular every malformed string);
it returns a non-null identifier exactly when some pattern matches as
a substring — the URL's host is not parsed or checked. -/
theorem extractVideoId_none_of_no_core (s : List Char)
    (h : ∀ pat ∈ urlPats, ciHas pat.core s = false) :
    extractVideoId s = none := by
  rw [extractVideoId, List.findSome?_eq_none_iff]
  intro pat hpat
  exact scan_none_of_not_ciHas pat s (h pat hpat)

/-- Witness for the amended C8 at the malformed string `hello world`. -/
theorem extractVideoId_none_of_no_core_witness :
    extractVideoId "hello world".toList = none :=
  extractVideoId_none_of_no_core "hello world".toList (by decide)

/-! ## The thumbnail selector (`getBestThumbnail`, `src/lib/video/helpers`)

The source copies the array and sorts it with the comparator
`(a, b) => bRes - aRes` where `res = (width || 0) * (height || 0)`,
then takes the first element.  JavaScript's `Array.prototype.sort` is
specified stable, so the sort is embedded as a stable insertion sort
consistent with that comparator: descending by resolution, equal keys
keeping their original order. -/

/-- Thumbnail metadata (`Thumbnail` of `src/lib/video/model`): url and
optional pixel dimensions. -/
structure Thumbnail where
  url : String
  width : Option Nat
  height : Option Nat
deriving DecidableEq

/-- `(a.width || 0) * (a.height || 0)` of the comparator. -/
def resOf (t : Thumbnail) : Nat :=
  t.width.getD 0 * t.height.getD 0

/-- Stable descending insertion: a later element is placed after every
earlier element of greater-or-equal resolution. -/
def insertThumb (a : Thumbnail) : List Thumbnail → List Thumbnail
  | [] => [a]
  | b :: l => if resOf b ≤ resOf a then a :: b :: l else b :: insertThumb a l

/-- The stable sort `[...thumbnails].sort((a, b) => bRes - aRes)`. -/
def sortThumbs : List Thumbnail → List Thumbnail
  | [] => []
  | a :: l => insertThumb a (sortThumbs l)

/-- `getBestThumbnail` of `src/lib/video/helpers`: null on an empty (or
absent) list, else the first element of the sorted copy. -/
def getBestThumbnail (ts : List Thumbnail) : Option String :=
  match sortThumbs ts with
  | [] => none
  | t :: _ => some t.url

theorem insertThumb_ne_nil (a : Thumbnail) (l : List Thumbnail) :
    insertThumb a l ≠ [] := by
  cases l with
  | nil => simp [insertThumb]
  | cons b bs =>
    rw [insertThumb]
    split <;> simp

theorem sortThumbs_eq_nil_iff (l : List Thumbnail) :
    sortThumbs l = [] ↔ l = [] := by
  cases l with
  | nil => simp [sortThumbs]
  | cons a bs =>
    simp only [sortThumbs]
    exact ⟨fun h => absurd h (insertThumb_ne_nil a _), fun h => by simp at h⟩

/-- The head of the stable descending sort is the first element of the
original list attaining the maximal resolution. -/
theorem sortThumbs_head (l : List Thumbnail) (t : Thumbnail)
    (rest : List Thumbnail) (h : sortThumbs l = t :: rest) :
    ∃ pre post, l = pre ++ t :: post ∧ (∀ u ∈ l, resOf u ≤ resOf t)
      ∧ ∀ u ∈ pre, resOf u < resOf t := by
  induction l generalizing t rest with
  | nil => simp [sortThumbs] at h
  | cons x xs ih =>
    rw [sortThumbs] at h
    cases hxs : sortThumbs xs with
    | nil =>
      rw [hxs, insertThumb] at h
      have hxsnil : xs = [] := (sortThumbs_eq_nil_iff xs).mp hxs
      cases h
      refine ⟨[], [], by simp [hxsnil], ?_, by simp⟩
      intro u hu
      rw [hxsnil] at hu
      simp at hu
      exact hu ▸ le_refl _
    | cons y ys =>
      obtain ⟨pre', post', hsplit, hmax, hstrict⟩ := ih y ys hxs
      rw [hxs, insertThumb] at h
      by_cases hcmp : resOf y ≤ resOf x
      · rw [if_pos hcmp] at h
        cases h
        refine ⟨[], xs, rfl, ?_, by simp⟩
        intro u hu
        rcases List.mem_cons.mp hu with h | h
        · exact h ▸ le_refl _
        · exact le_trans (hmax u h) hcmp
      · rw [if_neg hcmp] at h
        cases h
        push_neg at hcmp
        refine ⟨x :: pre', post', by rw [hsplit]; rfl, ?_, ?_⟩
        · intro u hu
          rcases List.mem_cons.mp hu with h | h
          · exact h ▸ le_of_lt hcmp
          · exact hmax u h
        · intro u hu
          rcases List.mem_cons.mp hu with h | h
          · exact h ▸ hcmp
          · exact hstrict u h

/-- C6: on every non-empty thumbnail list, `getBestThumbnail` returns
the URL of a thumbnail of maximal width×height, and every thumbnail
before it in the original order has strictly smaller resolution (the
stable sort picks the earliest among maximal ones); in particular, on
[{120×90}, {640×480}, {320×240}] it returns the URL of the 640×480
entry. -/
theorem getBestThumbnail_max (ts : List Thumbnail) (hne : ts ≠ []) :
    ∃ pre t post, ts = pre ++ t :: post
      ∧ getBestThumbnail ts = some t.url
      ∧ (∀ u ∈ ts, resOf u ≤ resOf t)
      ∧ ∀ u ∈ pre, resOf u < resOf t := by
  cases hs : sortThumbs ts with
  | nil => exact absurd ((sortThumbs_eq_nil_iff ts).mp hs) hne
  | cons t rest =>
    obtain ⟨pre, post, hsplit, hmax, hstrict⟩ := sortThumbs_head ts t rest hs
    exact ⟨pre, t, post, hsplit, by rw [getBestThumbnail, hs], hmax, hstrict⟩

/-- Witness for C6 at the list from the spec's example: the selected
URL is that of the 640×480 entry. -/
theorem getBestThumbnail_max_witness :
    (∃ pre t post,
      [⟨"u120", some 120, some 90⟩, ⟨"u640", some 640, some 480⟩,
        (⟨"u320", some 320, some 240⟩ : Thumbnail)] = pre ++ t :: post
      ∧ getBestThumbnail [⟨"u120", some 120, some 90⟩,
          ⟨"u640", some 640, some 480⟩, ⟨"u320", some 320, some 240⟩]
          = some t.url
      ∧ (∀ u ∈ [⟨"u120", some 120, some 90⟩, ⟨"u640", some 640, some 480⟩,
          (⟨"u320", some 320, some 240⟩ : Thumbnail)], resOf u ≤ resOf t)
      ∧ ∀ u ∈ pre, resOf u < resOf t)
    ∧ getBestThumbnail [⟨"u120", some 120, some 90⟩,
        ⟨"u640", some 640, some 480⟩, ⟨"u320", some 320, some 240⟩]
        = some "u640" :=
  ⟨getBestThumbnail_max _ (by decide), by decide⟩

/-- C10: `getBestThumbnail` returns null exactly on the empty (or
absent) list, and a thumbnail with a missing dimension has resolution
zero, so whenever some thumbnail has both dimensions positive, the
selected thumbnail has positive resolution — hence both dimensions
present and positive — and is never one with a missing dimension. -/
theorem getBestThumbnail_none_iff_and_missing_dims (ts : List Thumbnail) :
    (getBestThumbnail ts = none ↔ ts = [])
      ∧ (∀ t, (t.width = none ∨ t.height = none) → resOf t = 0)
      ∧ (∀ u ∈ ts, 0 < resOf u →
          ∃ t rest, sortThumbs ts = t :: rest
            ∧ getBestThumbnail ts = some t.url ∧ 0 < resOf t
            ∧ t.width ≠ none ∧ t.height ≠ none) := by
  refine ⟨?_, ?_, ?_⟩
  · cases hs : sortThumbs ts with
    | nil =>
      rw [getBestThumbnail, hs]
      simpa using (sortThumbs_eq_nil_iff ts).mp hs
    | cons t rest =>
      rw [getBestThumbnail, hs]
      constructor
      · intro h
        exact absurd h (by simp)
      · intro h
        rw [h] at hs
        simp [sortThumbs] at hs
  · intro t ht
    rcases ht with h | h <;> simp [resOf, h]
  · intro u hu hpos
    cases hs : sortThumbs ts with
    | nil =>
      have : ts = [] := (sortThumbs_eq_nil_iff ts).mp hs
      rw [this] at hu
      simp at hu
    | cons t rest =>
      obtain ⟨pre, post, _, hmax, _⟩ := sortThumbs_head ts t rest hs
      have htpos : 0 < resOf t := lt_of_lt_of_le hpos (hmax u hu)
      refine ⟨t, rest, rfl, by rw [getBestThumbnail, hs], htpos, ?_, ?_⟩
      · intro h
        rw [resOf, h] at htpos
        simp at htpos
      · intro h
        rw [resOf, h] at htpos
        simp at htpos

/-- Witness for C10: a missing-dimension thumbnail loses to a small but
fully-dimensioned one. -/
theorem getBestThumbnail_missing_dims_witness :
    (getBestThumbnail [] = none)
    ∧ (∃ t rest,
        sortThumbs [⟨"noDims", none, some 999⟩, (⟨"small", some 2, some 3⟩ : Thumbnail)]
          = t :: rest
        ∧ getBestThumbnail [⟨"noDims", none, some 999⟩,
            (⟨"small", some 2, some 3⟩ : Thumbnail)] = some t.url
        ∧ 0 < resOf t ∧ t.width ≠ none ∧ t.height ≠ none) :=
  ⟨((getBestThumbnail_none_iff_and_missing_dims []).1).mpr rfl,
    (getBestThumbnail_none_iff_and_missing_dims
      [⟨"noDims", none, some 999⟩, ⟨"small", some 2, some 3⟩]).2.2
      ⟨"small", some 2, some 3⟩ (by decide) (by decide)⟩

/-! ## Temp-directory bookkeeping (`src/lib/utils/file-system`)

`cleanExtraFiles` and the POST handler's file-recovery scan operate on
a directory listing.  A listing entry carries the name and the
modification time (the code of the recovery scan never reads the
mtime; it is carried so the spec's "most recently modified" wording
can be compared against the code). -/

/-- A file of the temp directory: name and modification time (ms). -/
structure TempFile where
  name : List Char
  mtimeMs : Int
deriving DecidableEq

/-- JS `String.includes`: the needle occurs contiguously in the hay. -/
def jsIncludes (needle : List Char) : List Char → Bool
  | [] => needle.isEmpty
  | c :: cs => needle.isPrefixOf (c :: cs) || jsIncludes needle cs

/-- `cleanExtraFiles(baseFilename, targetFilename)`: the directory
listing after the deletions.  The source removes every file other than
the target whose name includes the base; a failed unlink is caught and
logged, leaving the file in place (`unlinkOk` records each unlink's
outcome). -/
def cleanExtraFiles (files : List (List Char)) (base target : List Char)
    (unlinkOk : List Char → Bool) : List (List Char) :=
  files.filter fun f => !(f != target && jsIncludes base f && unlinkOk f)

/-- C4: after a successful download, `cleanExtraFiles` leaves exactly
one artifact sharing the base name: the target survives, and every
surviving file whose name matches the base-name pattern is the target
(assuming the individual deletions succeed). -/
theorem cleanExtraFiles_unique_artifact (files : List (List Char))
    (base target : List Char) (unlinkOk : List Char → Bool)
    (htmem : target ∈ files) (hok : ∀ f ∈ files, unlinkOk f = true) :
    target ∈ cleanExtraFiles files base target unlinkOk
      ∧ (∀ f ∈ cleanExtraFiles files base target unlinkOk,
          jsIncludes base f = true → f = target)
      ∧ ∀ f ∈ cleanExtraFiles files base target unlinkOk, f ∈ files := by
  refine ⟨?_, ?_, ?_⟩
  · rw [cleanExtraFiles, List.mem_filter]
    refine ⟨htmem, ?_⟩
    simp
  · intro f hf hinc
    rw [cleanExtraFiles, List.mem_filter] at hf
    obtain ⟨hfm, hpred⟩ := hf
    rw [hinc, hok f hfm] at hpred
    simp only [Bool.and_true, Bool.not_eq_eq_eq_not, Bool.not_true] at hpred
    exact bne_eq_false_iff_eq.mp hpred
  · intro f hf
    rw [cleanExtraFiles, List.mem_filter] at hf
    exact hf.1

/-- Witness for C4 on a listing holding the target, a sibling partial
file and an unrelated file. -/
theorem cleanExtraFiles_unique_artifact_witness :
    "Video_1700.mp4".toList
        ∈ cleanExtraFiles
          ["Video_1700.mp4".toList, "Video_1700.mp4.part".toList,
            "other.txt".toList]
          "Video".toList "Video_1700.mp4".toList (fun _ => true)
      ∧ (∀ f ∈ cleanExtraFiles
            ["Video_1700.mp4".toList, "Video_1700.mp4.part".toList,
              "other.txt".toList]
            "Video".toList "Video_1700.mp4".toList (fun _ => true),
          jsIncludes "Video".toList f = true → f = "Video_1700.mp4".toList)
      ∧ ∀ f ∈ cleanExtraFiles
            ["Video_1700.mp4".toList, "Video_1700.mp4.part".toList,
              "other.txt".toList]
            "Video".toList "Video_1700.mp4".toList (fun _ => true),
          f ∈ ["Video_1700.mp4".toList, "Video_1700.mp4.part".toList,
            "other.txt".toList] :=
  cleanExtraFiles_unique_artifact _ _ _ _ (by decide) (by decide)

/-! ## The POST handler's file-recovery scan (`src/unnamed/part_002`)

After `downloadVideo` returns, the handler checks whether the expected
`<base>.mp4` exists; if not it reads the directory and adopts
`files.find(file => file.startsWith(baseName))` — the first entry in
listing order.  Nothing else is consulted; in particular no
modification time and no trailing-window scan. -/

/-- The handler's resolution of the actual downloaded file. -/
def resolveActualFile (files : List TempFile) (base : List Char) :
    Option (List Char) :=
  let expected := base ++ ".mp4".toList
  if files.any (fun f => f.name == expected) then some expected
  else
    match files.find? (fun f => base.isPrefixOf f.name) with
    | some f => some f.name
    | none => none

/-- Follows the spec's words (comparison definition for C1/C2): the
most recently modified file among those satisfying `p`. -/
def specNewestSuchThat (files : List TempFile) (p : TempFile → Bool) :
    Option TempFile :=
  (files.filter p).foldl
    (fun acc f =>
      match acc with
      | none => some f
      | some g => if g.mtimeMs < f.mtimeMs then some f else some g)
    none

/-- C1 counterexample: with two candidates `T_1.webm` (older) and
`T_1.mkv` (newer) in listing order, the handler adopts the first listed
file, not the most recently modified one as the claim states. -/
theorem resolveActualFile_ignores_mtime_counterexample :
    resolveActualFile [⟨"T_1.webm".toList, 100⟩, ⟨"T_1.mkv".toList, 200⟩]
        "T_1".toList = some "T_1.webm".toList
      ∧ specNewestSuchThat
          [⟨"T_1.webm".toList, 100⟩, ⟨"T_1.mkv".toList, 200⟩]
          (fun f => "T_1".toList.isPrefixOf f.name)
          = some ⟨"T_1.mkv".toList, 200⟩
      ∧ "T_1.webm".toList ≠ "T_1.mkv".toList := by
  refine ⟨by decide, by decide, by decide⟩

/-- C1 (amended): when the expected output path does not exist, the
handler scans the temp directory for names starting with the base
name; a sole candidate is adopted, and with several candidates the
first in directory-listing order is adopted — modification times are
not consulted.  (The `.webm`-for-`.mp4` adoption of the claim's
example follows from the sole-candidate case.) -/
theorem resolveActualFile_first_listed (files : List TempFile)
    (base : List Char)
    (hnoexp : ∀ f ∈ files, f.name ≠ base ++ ".mp4".toList) :
    (∀ f ∈ files, base.isPrefixOf f.name = true →
      (∀ g ∈ files, base.isPrefixOf g.name = true → g = f) →
      resolveActualFile files base = some f.name)
      ∧ ∀ l₁ f l₂, files = l₁ ++ f :: l₂ → base.isPrefixOf f.name = true →
          (∀ g ∈ l₁, base.isPrefixOf g.name = false) →
          resolveActualFile files base = some f.name := by
  have hany : files.any (fun f => f.name == base ++ ".mp4".toList) = false := by
    rw [List.any_eq_false]
    intro f hf
    simpa using hnoexp f hf
  constructor
  · intro f hf hpf huniq
    rw [resolveActualFile]
    simp only [hany, Bool.false_eq_true, if_false]
    have hsome : (files.find? (fun f => base.isPrefixOf f.name)).isSome := by
      rw [List.find?_isSome]
      exact ⟨f, hf, hpf⟩
    obtain ⟨g, hg⟩ := Option.isSome_iff_exists.mp hsome
    have hgp := List.find?_some hg
    have hgm : g ∈ files := List.mem_of_find?_eq_some hg
    rw [hg, huniq g hgm (by simpa using hgp)]
  · intro l₁ f l₂ hsplit hpf hnone
    rw [resolveActualFile]
    simp only [hany, Bool.false_eq_true, if_false]
    have hfind : files.find? (fun f => base.isPrefixOf f.name) = some f := by
      rw [List.find?_eq_some]
      refine ⟨hpf, l₁, l₂, hsplit, ?_⟩
      intro g hg
      simp [hnone g hg]
    rw [hfind]

/-- Witness for the amended C1: the claim's own example — only
`Title_12345.webm` exists where `Title_12345.mp4` was expected — is
adopted as the sole candidate. -/
theorem resolveActualFile_first_listed_witness :
    resolveActualFile [⟨"Title_12345.webm".toList, 0⟩] "Title_12345".toList
      = some "Title_12345.webm".toList :=
  (resolveActualFile_first_listed [⟨"Title_12345.webm".toList, 0⟩]
      "Title_12345".toList (by decide)).1
    ⟨"Title_12345.webm".toList, 0⟩ (by decide) (by decide)
    (by decide)

/-- C2 counterexample: when no name matches the base, the handler
resolves nothing (the route then answers HTTP 500) even though a file
modified within the last 30 seconds exists — the trailing-window
last-resort scan described by the claim does not exist in the code. -/
theorem resolveActualFile_no_last_resort_counterexample :
    resolveActualFile [⟨"recent_download.webm".toList, 995000⟩]
        "Title_1".toList = none
      ∧ specNewestSuchThat [⟨"recent_download.webm".toList, 995000⟩]
          (fun f => 1000000 - f.mtimeMs ≤ 30000)
          = some ⟨"recent_download.webm".toList, 995000⟩ := by
  refine ⟨by decide, by decide⟩

/-- C2 (amended): when the base-name recovery scan finds no matching
candidate, the handler adopts nothing and the request fails with a 500
error; no scan for recently modified files is performed. -/
theorem resolveActualFile_none_of_no_match (files : List TempFile)
    (base : List Char)
    (h : ∀ f ∈ files, base.isPrefixOf f.name = false) :
    resolveActualFile files base = none := by
  have hany : files.any (fun f => f.name == base ++ ".mp4".toList) = false := by
    rw [List.any_eq_false]
    intro f hf
    simp only [beq_iff_eq]
    intro heq
    have : base.isPrefixOf f.name = true := by
      rw [heq, List.isPrefixOf_iff_prefix]
      exact List.prefix_append _ _
    rw [h f hf] at this
    exact absurd this (by simp)
  have hfind : files.find? (fun f => base.isPrefixOf f.name) = none := by
    rw [List.find?_eq_none]
    intro f hf
    simp [h f hf]
  rw [resolveActualFile]
  simp only [hany, Bool.false_eq_true, if_false, hfind]

/-- Witness for the amended C2. -/
theorem resolveActualFile_none_of_no_match_witness :
    resolveActualFile [⟨"recent_other.webm".toList, 999⟩] "Video_7".toList
      = none :=
  resolveActualFile_none_of_no_match _ _ (by decide)

/-! ## The download fallback chain (`src/lib/video/downloader.ts`)

External `yt-dlp` invocations and the directory read are embedded as
an environment recording each call site's outcome.  Alongside the
result, each function returns the list of stages it actually ran, in
order, so the claims about fallback ordering are statable.

Two source variants are claimed about: `downloadVideoYtDlp`
(lines 253–277, two stages) and the `downloadVideo`/
`tryFallbackDownload` pair (lines 579–627, three stages plus a
directory check between the fallbacks). -/

/-- The stages of the fallback chain: the primary
`bestvideo+bestaudio/best` attempt, the `-f best` fallback, and the
explicit `bestvideo+bestaudio --audio-format mp3` fallback. -/
inductive DlStage where
  | primary
  | bestFmt
  | audioFmt
deriving DecidableEq, Repr

/-- The message of the terminal error, as built in both catch blocks. -/
def dlFailMsg (e : String) : String :=
  "Download failed after multiple attempts: " ++ e

/-- Outcomes of the external calls available to one download request. -/
structure DlEnv where
  primaryExec : Except String Unit
  bestExec : Except String Unit
  dirFiles : List (List Char)
  audioExec : Except String Unit

/-- `downloadVideoYtDlp` (lines 253–277): primary attempt, then on
failure the `-f best` fallback, whose failure raises the terminal
error with the fallback's message. -/
def downloadVideoYtDlp (env : DlEnv) : Except String Unit × List DlStage :=
  match env.primaryExec with
  | .ok _ => (.ok (), [.primary])
  | .error _ =>
    match env.bestExec with
    | .ok _ => (.ok (), [.primary, .bestFmt])
    | .error e => (.error (dlFailMsg e), [.primary, .bestFmt])

/-- `tryFallbackDownload` (lines 607–627): run `-f best`; then read the
directory and only if no file starts with the base name run the
explicit-audio fallback.  Any command failure inside the single try
block jumps to the catch, which raises the terminal error. -/
def tryFallbackDownload (env : DlEnv) (baseFileName : List Char) :
    Except String Unit × List DlStage :=
  match env.bestExec with
  | .error e => (.error (dlFailMsg e), [.bestFmt])
  | .ok _ =>
    match env.dirFiles.find? (fun f => baseFileName.isPrefixOf f) with
    | some _ => (.ok (), [.bestFmt])
    | none =>
      match env.audioExec with
      | .ok _ => (.ok (), [.bestFmt, .audioFmt])
      | .error e => (.error (dlFailMsg e), [.bestFmt, .audioFmt])

/-- `downloadVideo` (lines 579–600): primary attempt; on failure hand
over to `tryFallbackDownload`. -/
def downloadVideo (env : DlEnv) (baseFileName : List Char) :
    Except String Unit × List DlStage :=
  match env.primaryExec with
  | .ok _ => (.ok (), [.primary])
  | .error _ =>
    let r := tryFallbackDownload env baseFileName
    (r.1, .primary :: r.2)

/-- C3 counterexample: primary and first fallback fail while the second
fallback would succeed; the chain raises the terminal error without
ever attempting the remaining stage, so the error is not raised "only
when all stages are exhausted". -/
theorem downloadVideo_aborts_midchain_counterexample :
    downloadVideo ⟨.error "primary boom", .error "best boom", [], .ok ()⟩ []
        = (.error (dlFailMsg "best boom"), [.primary, .bestFmt])
      ∧ DlStage.audioFmt
          ∉ (downloadVideo
              ⟨.error "primary boom", .error "best boom", [], .ok ()⟩ []).2
      ∧ (⟨.error "primary boom", .error "best boom", [], .ok ()⟩
          : DlEnv).audioExec = .ok () := by
  refine ⟨rfl, by decide, rfl⟩

/-- C3 (amended): in `downloadVideoYtDlp`'s two-stage chain each
stage's failure is caught, the next stage runs only after the previous
failed, and the terminal error carries the last error's message.  In
`downloadVideo`'s chain, a primary success ends the chain at once; a
primary failure followed by a first-fallback success that produced a
matching file returns normally; a first-fallback command failure
raises the terminal error immediately, without attempting the
explicit-audio stage; that stage runs only when the first fallback
succeeded without producing a file, and its failure raises the
terminal error with its message. -/
theorem downloadVideo_fallback_chain :
    (∀ env : DlEnv, env.primaryExec = .ok () →
        downloadVideoYtDlp env = (.ok (), [.primary]))
      ∧ (∀ (env : DlEnv) (p : String), env.primaryExec = .error p →
          env.bestExec = .ok () →
          downloadVideoYtDlp env = (.ok (), [.primary, .bestFmt]))
      ∧ (∀ (env : DlEnv) (p e : String), env.primaryExec = .error p →
          env.bestExec = .error e →
          downloadVideoYtDlp env = (.error (dlFailMsg e), [.primary, .bestFmt]))
      ∧ (∀ (env : DlEnv) (base : List Char), env.primaryExec = .ok () →
          downloadVideo env base = (.ok (), [.primary]))
      ∧ (∀ (env : DlEnv) (base : List Char) (p : String) (f : List Char),
          env.primaryExec = .error p → env.bestExec = .ok () →
          env.dirFiles.find? (fun g => base.isPrefixOf g) = some f →
          downloadVideo env base = (.ok (), [.primary, .bestFmt]))
      ∧ (∀ (env : DlEnv) (base : List Char) (p e : String),
          env.primaryExec = .error p → env.bestExec = .error e →
          downloadVideo env base
            = (.error (dlFailMsg e), [.primary, .bestFmt]))
      ∧ (∀ (env : DlEnv) (base : List Char) (p e : String),
          env.primaryExec = .error p → env.bestExec = .ok () →
          env.dirFiles.find? (fun g => base.isPrefixOf g) = none →
          env.audioExec = .error e →
          downloadVideo env base
            = (.error (dlFailMsg e), [.primary, .bestFmt, .audioFmt])) := by
  refine ⟨?_, ?_, ?_, ?_, ?_, ?_, ?_⟩
  · intro env h
    rw [downloadVideoYtDlp, h]
  · intro env p h1 h2
    rw [downloadVideoYtDlp, h1, h2]
  · intro env p e h1 h2
    rw [downloadVideoYtDlp, h1, h2]
  · intro env base h
    rw [downloadVideo, h]
  · intro env base p f h1 h2 h3
    rw [downloadVideo, h1, tryFallbackDownload, h2, h3]
  · intro env base p e h1 h2
    rw [downloadVideo, h1, tryFallbackDownload, h2]
  · intro env base p e h1 h2 h3 h4
    rw [downloadVideo, h1, tryFallbackDownload, h2, h3, h4]

/-- Witness for the amended C3: primary fails, the `-f best` fallback
succeeds and produces a matching file — `downloadVideo` returns
normally with the result coming from the secondary stage. -/
theorem downloadVideo_fallback_chain_witness :
    downloadVideo
        ⟨.error "p", .ok (), ["vid_1.webm".toList], .ok ()⟩ "vid_1".toList
      = (.ok (), [.primary, .bestFmt]) :=
  downloadVideo_fallback_chain.2.2.2.2.1
    ⟨.error "p", .ok (), ["vid_1.webm".toList], .ok ()⟩ "vid_1".toList
    "p" "vid_1.webm".toList rfl rfl (by decide)

/-! ## The metadata fetcher (`getVideoInfo`, lines 136–234)

`getVideoInfo` dispatches on the process-wide downloader method:
`ytdlp` uses yt-dlp (`getVideoInfoYtDlp`), anything else the Node
implementation (`getVideoInfoNode`).  Outcomes of the external calls
(process execution combined with the file read, network fetches, file
writes) are supplied per call site by the environments below. -/

/-- A metadata record, covering the fields the fetchers build; the two
optional fields exist only on the Node path's objects. -/
structure VideoMeta where
  title : String
  thumbnail : String
  duration : Nat
  uploader : String
  id : Option String
  webpageUrl : Option String
deriving DecidableEq

/-- JS `x || default` on an optional string: empty and absent are
falsy. -/
def jsOrS (o : Option String) (d : String) : String :=
  match o with
  | some s => if s = "" then d else s
  | none => d

/-- JS `extractYouTubeId(url) || 'unknown'`. -/
def jsIdOr (o : Option String) : String :=
  match o with
  | some s => if s = "" then "unknown" else s
  | none => "unknown"

/-- Models `parseFloat` on yt-dlp's printed duration, restricted to the
integral part; `none` encodes `NaN`. -/
def parseNatDigits (s : List Char) : Option Nat :=
  let digs := s.takeWhile fun c => c.isDigit
  if digs.isEmpty then none
  else some (digs.foldl (fun n c => 10 * n + (c.toNat - 48)) 0)

/-- Call-site outcomes of `getVideoInfoYtDlp`: the `--dump-json`
invocation combined with reading and JSON-parsing the output file; the
`--print` invocation combined with reading the `.txt` file; and the
write of the reconstructed metadata. -/
structure YtInfoEnv where
  dumpJson : Except String VideoMeta
  printRaw : Except String String
  wMeta : Except String Unit

/-- `getVideoInfoYtDlp` (lines 149–173): structured JSON output, then
on failure text-based extraction with JS-falsy defaults; a failure of
the fallback extraction itself propagates to the caller. -/
def getVideoInfoYtDlp (env : YtInfoEnv) : Except String VideoMeta :=
  match env.dumpJson with
  | .ok m => .ok m
  | .error _ =>
    match env.printRaw with
    | .error e => .error e
    | .ok content =>
      let rawFields := (content.splitOn "\n").filter fun l => l != ""
      let md : VideoMeta :=
        { title := jsOrS rawFields[0]? "Untitled Video"
          thumbnail := jsOrS rawFields[1]? ""
          duration := (rawFields[2]?.bind fun s => parseNatDigits s.toList).getD 0
          uploader := jsOrS rawFields[3]? "Unknown"
          id := none
          webpageUrl := none }
      match env.wMeta with
      | .error e => .error e
      | .ok _ => .ok md

/-- The oEmbed response fields the Node path reads. -/
structure OembedData where
  title : Option String
  authorName : Option String
deriving DecidableEq

/-- Call-site outcomes of `getVideoInfoNode`: the oEmbed JSON fetch,
the watch-page HTML fetch, and the two metadata writes (one in the
try block, one in the catch block). -/
structure NodeEnv where
  oembed : Except String OembedData
  html : Except String String
  wTry : Except String Unit
  wCatch : Except String Unit

/-- The digits of `(\d+)` followed by the closing quote of the
`"lengthSeconds":"(\d+)"` regex. -/
def numThenQuote (s : List Char) : Option Nat :=
  let digs := s.takeWhile Char.isDigit
  if digs.isEmpty then none
  else
    match s.drop digs.length with
    | '"' :: _ => some (digs.foldl (fun n c => 10 * n + (c.toNat - 48)) 0)
    | _ => none

/-- Left-to-right search of `/"lengthSeconds":"(\d+)"/` in the page
HTML. -/
def scanLenSecs : List Char → Option Nat
  | [] => none
  | c :: cs =>
    if ("\"lengthSeconds\":\"".toList).isPrefixOf (c :: cs) then
      match numThenQuote ((c :: cs).drop
          ("\"lengthSeconds\":\"".toList).length) with
      | some n => some n
      | none => scanLenSecs cs
    else scanLenSecs cs

/-- The synthetic record built by `getVideoInfoNode`'s catch block. -/
def nodeFallbackMeta (extractId : String → Option String) (url : String) :
    VideoMeta :=
  let vid := jsIdOr (extractId url)
  { title := "YouTube Video (" ++ vid ++ ")"
    thumbnail := if vid ≠ "unknown"
      then "https://img.youtube.com/vi/" ++ vid ++ "/default.jpg" else ""
    duration := 0
    uploader := "Unknown"
    id := some vid
    webpageUrl := some url }

/-- The try block of `getVideoInfoNode` (lines 181–216): id extraction,
oEmbed fetch, HTML fetch, duration scrape, metadata write. -/
def getVideoInfoNodeTry (extractId : String → Option String) (env : NodeEnv)
    (url : String) : Except String VideoMeta :=
  match extractId url with
  | none => .error "Could not extract YouTube video ID from URL"
  | some vid =>
    match env.oembed with
    | .error e => .error e
    | .ok od =>
      match env.html with
      | .error e => .error e
      | .ok htmlContent =>
        let md : VideoMeta :=
          { title := jsOrS od.title "Untitled Video"
            thumbnail := "https://img.youtube.com/vi/" ++ vid
              ++ "/maxresdefault.jpg"
            duration := (scanLenSecs htmlContent.toList).getD 0
            uploader := jsOrS od.authorName "Unknown"
            id := some vid
            webpageUrl := some ("https://www.youtube.com/watch?v=" ++ vid) }
        match env.wTry with
        | .error e => .error e
        | .ok _ => .ok md

/-- `getVideoInfoNode` (lines 178–234): the try block, with the catch
block building the synthetic fallback record (whose own write is the
only remaining failure point). -/
def getVideoInfoNode (extractId : String → Option String) (env : NodeEnv)
    (url : String) : Except String VideoMeta :=
  match getVideoInfoNodeTry extractId env url with
  | .ok m => .ok m
  | .error _ =>
    match env.wCatch with
    | .error e => .error e
    | .ok _ => .ok (nodeFallbackMeta extractId url)

/-- The process-wide downloader method (`undefined` behaves as
`node`). -/
inductive DlMethod where
  | ytdlp
  | node
deriving DecidableEq

/-- `getVideoInfo` (lines 136–144): dispatch on the method. -/
def getVideoInfo (method : DlMethod) (ytEnv : YtInfoEnv) (nodeEnv : NodeEnv)
    (extractId : String → Option String) (url : String) :
    Except String VideoMeta :=
  match method with
  | .ytdlp => getVideoInfoYtDlp ytEnv
  | .node => getVideoInfoNode extractId nodeEnv url

/-- C5 counterexample: with the yt-dlp method active and both
extraction methods failing, `getVideoInfo` propagates the error to its
caller instead of returning a synthetic record — the route handler
indeed wraps it in try/catch and answers 500. -/
theorem getVideoInfo_throws_counterexample :
    getVideoInfo .ytdlp ⟨.error "dump failed", .error "print failed", .ok ()⟩
        ⟨.error "", .error "", .ok (), .ok ()⟩ (fun _ => none) "someUrl"
      = .error "print failed" := rfl

/-- C5 (amended): the Node path never throws provided the catch
block's metadata write succeeds: for every input it returns either the
real record or, whenever the try block failed, the synthetic fallback
(title `YouTube Video (id)`, duration 0, uploader `Unknown`).  The
yt-dlp path propagates a failure of its own fallback extraction. -/
theorem getVideoInfo_node_total (ytEnv : YtInfoEnv)
    (extractId : String → Option String) (env : NodeEnv) (url : String)
    (hw : env.wCatch = .ok ()) :
    (∃ m, getVideoInfo .node ytEnv env extractId url = .ok m)
      ∧ ∀ e, getVideoInfoNodeTry extractId env url = .error e →
          getVideoInfo .node ytEnv env extractId url
              = .ok (nodeFallbackMeta extractId url)
            ∧ (nodeFallbackMeta extractId url).duration = 0
            ∧ (nodeFallbackMeta extractId url).uploader = "Unknown"
            ∧ (nodeFallbackMeta extractId url).title
                = "YouTube Video (" ++ jsIdOr (extractId url) ++ ")" := by
  constructor
  · cases htry : getVideoInfoNodeTry extractId env url with
    | ok m =>
      exact ⟨m, by rw [getVideoInfo, getVideoInfoNode, htry]⟩
    | error e =>
      exact ⟨nodeFallbackMeta extractId url,
        by rw [getVideoInfo, getVideoInfoNode, htry, hw]⟩
  · intro e htry
    refine ⟨by rw [getVideoInfo, getVideoInfoNode, htry, hw], rfl, rfl, rfl⟩

/-- Witness for the amended C5: every fetch fails, yet the Node path
returns the synthetic record. -/
theorem getVideoInfo_node_total_witness :
    (∃ m, getVideoInfo .node
        ⟨.error "d", .error "p", .ok ()⟩
        ⟨.error "oembed down", .error "html down", .ok (), .ok ()⟩
        (fun _ => none) "badUrl" = .ok m)
      ∧ ∀ e, getVideoInfoNodeTry (fun _ => none)
            ⟨.error "oembed down", .error "html down", .ok (), .ok ()⟩
            "badUrl" = .error e →
          getVideoInfo .node ⟨.error "d", .error "p", .ok ()⟩
              ⟨.error "oembed down", .error "html down", .ok (), .ok ()⟩
              (fun _ => none) "badUrl"
              = .ok (nodeFallbackMeta (fun _ => none) "badUrl")
            ∧ (nodeFallbackMeta (fun _ => none) "badUrl").duration = 0
            ∧ (nodeFallbackMeta (fun _ => none) "badUrl").uploader = "Unknown"
            ∧ (nodeFallbackMeta (fun _ => none) "badUrl").title
                = "YouTube Video ("
                  ++ jsIdOr ((fun (_ : String) => none) "badUrl") ++ ")" :=
  getVideoInfo_node_total ⟨.error "d", .error "p", .ok ()⟩ (fun _ => none)
    ⟨.error "oembed down", .error "html down", .ok (), .ok ()⟩ "badUrl" rfl

/-! ## The file-retrieval route (`GET`, `src/unnamed/part_003`)

The handler takes `new URL(request.url).pathname`, splits on `/`,
takes the last component as the filename (empty → 400), applies
`path.basename` and opens `path.join(TEMP_DIR, sanitized)`.

The WHATWG URL parser running inside `new URL` removes dot segments
(`.`/`..`, also in their percent-encoded spellings) from the path, so
the handler's input pathname never contains one; `normalizePathSegs`
embeds that normalization on the path's segment list. -/

/-- Case-insensitive list equality (percent-encoded dot segments are
matched case-insensitively by the URL parser). -/
def ciEqL : List Char → List Char → Bool
  | [], [] => true
  | a :: as, b :: bs => ciEq a b && ciEqL as bs
  | _, _ => false

/-- A single-dot path segment: `.` or `%2e` (case-insensitive). -/
def isSingleDotSeg (s : List Char) : Bool :=
  s == ['.'] || ciEqL s "%2e".toList

/-- A double-dot path segment: `..`, `.%2e`, `%2e.` or `%2e%2e`. -/
def isDoubleDotSeg (s : List Char) : Bool :=
  s == "..".toList || ciEqL s ".%2e".toList || ciEqL s "%2e.".toList
    || ciEqL s "%2e%2e".toList

/-- One step of the URL path parser, over a reversed accumulator:
double dots shorten the path, single dots are skipped, both append an
empty segment when final; other segments are pushed. -/
def normStep (acc : List (List Char)) (s : List Char) (isLast : Bool) :
    List (List Char) :=
  if isDoubleDotSeg s then (if isLast then [] :: acc.tail else acc.tail)
  else if isSingleDotSeg s then (if isLast then [] :: acc else acc)
  else s :: acc

def normAux (acc : List (List Char)) : List (List Char) → List (List Char)
  | [] => acc.reverse
  | [s] => (normStep acc s true).reverse
  | s :: s2 :: rest => normAux (normStep acc s false) (s2 :: rest)

/-- Dot-segment removal of the WHATWG URL parser on a path's segment
list. -/
def normalizePathSegs (segs : List (List Char)) : List (List Char) :=
  normAux [] segs

/-- Strip trailing `/` characters (POSIX basename, first phase). -/
def rstripSlashes (s : List Char) : List Char :=
  (s.reverse.dropWhile fun c => c == '/').reverse

/-- Node's `path.posix.basename`: everything after the last `/` once
trailing slashes are ignored. -/
def basenamePosix (s : List Char) : List Char :=
  ((rstripSlashes s).reverse.takeWhile fun c => c != '/').reverse

/-- The handler's sanitized file name: last segment of the normalized
path (empty → 400/none), passed through `path.basename`.  The path
actually opened is `TEMP_DIR` joined with this name. -/
def fileRouteTarget (rawSegs : List (List Char)) : Option (List Char) :=
  let filename := (normalizePathSegs rawSegs).getLastD []
  if filename.isEmpty then none
  else some (basenamePosix filename)

theorem normStep_mem (acc : List (List Char)) (s t : List Char)
    (isLast : Bool) (h : t ∈ normStep acc s isLast) :
    t = [] ∨ t ∈ acc
      ∨ (t = s ∧ isSingleDotSeg s = false ∧ isDoubleDotSeg s = false) := by
  rw [normStep] at h
  by_cases hd : isDoubleDotSeg s = true
  · rw [if_pos hd] at h
    cases isLast with
    | true =>
      simp only [if_true] at h
      rcases List.mem_cons.mp h with h | h
      · exact Or.inl h
      · exact Or.inr (Or.inl (List.mem_of_mem_tail h))
    | false =>
      simp only [Bool.false_eq_true, if_false] at h
      exact Or.inr (Or.inl (List.mem_of_mem_tail h))
  · rw [if_neg hd] at h
    by_cases hs : isSingleDotSeg s = true
    · rw [if_pos hs] at h
      cases isLast with
      | true =>
        simp only [if_true] at h
        rcases List.mem_cons.mp h with h | h
        · exact Or.inl h
        · exact Or.inr (Or.inl h)
      | false =>
        simp only [Bool.false_eq_true, if_false] at h
        exact Or.inr (Or.inl h)
    · rw [if_neg hs] at h
      rcases List.mem_cons.mp h with h | h
      · exact Or.inr (Or.inr ⟨h, Bool.not_eq_true _ ▸ hs,
          Bool.not_eq_true _ ▸ hd⟩)
      · exact Or.inr (Or.inl h)

/-- Every segment produced by the normalization is empty, inherited
from the accumulator, or a non-dot segment of the input. -/
theorem normAux_mem (segs : List (List Char)) :
    ∀ (acc : List (List Char)) (t : List Char), t ∈ normAux acc segs →
      t = [] ∨ t ∈ acc
        ∨ (t ∈ segs ∧ isSingleDotSeg t = false ∧ isDoubleDotSeg t = false) := by
  induction segs with
  | nil =>
    intro acc t h
    rw [normAux, List.mem_reverse] at h
    exact Or.inr (Or.inl h)
  | cons s rest ih =>
    intro acc t h
    cases rest with
    | nil =>
      rw [normAux, List.mem_reverse] at h
      rcases normStep_mem acc s t true h with h | h | ⟨he, h1, h2⟩
      · exact Or.inl h
      · exact Or.inr (Or.inl h)
      · exact Or.inr (Or.inr ⟨by rw [he]; exact List.mem_singleton_self s,
          he ▸ h1, he ▸ h2⟩)
    | cons s2 rest2 =>
      rw [normAux] at h
      rcases ih (normStep acc s false) t h with h | h | ⟨hm, h1, h2⟩
      · exact Or.inl h
      · rcases normStep_mem acc s t false h with h | h | ⟨he, h1, h2⟩
        · exact Or.inl h
        · exact Or.inr (Or.inl h)
        · exact Or.inr (Or.inr ⟨by rw [he]; exact List.mem_cons_self s _,
            he ▸ h1, he ▸ h2⟩)
      · exact Or.inr (Or.inr ⟨List.mem_cons_of_mem s hm, h1, h2⟩)

theorem dropWhile_eq_self_of_all (p : Char → Bool) (l : List Char)
    (h : ∀ c ∈ l, p c = false) : l.dropWhile p = l := by
  cases l with
  | nil => rfl
  | cons c cs =>
    rw [List.dropWhile_cons, h c (List.mem_cons_self c cs)]
    simp

theorem basenamePosix_eq_self (s : List Char) (h : ∀ c ∈ s, c ≠ '/') :
    basenamePosix s = s := by
  have hstrip : rstripSlashes s = s := by
    rw [rstripSlashes, dropWhile_eq_self_of_all _ _ ?_, List.reverse_reverse]
    intro c hc
    simpa using h c (List.mem_reverse.mp hc)
  rw [basenamePosix, hstrip, List.takeWhile_eq_self_iff.mpr ?_,
    List.reverse_reverse]
  intro c hc
  simpa using h c (List.mem_reverse.mp hc)

/-- C9: for every request, the name the handler opens under the temp
directory is the base name of the pathname's final component and is a
plain segment: non-empty, free of `/` and not a dot segment (the URL
parser has removed `.`/`..` and their encoded forms).  Hence
`path.join(TEMP_DIR, name)` is a direct child of the temp directory,
and a request containing path-traversal segments can never cause a
file outside the temp directory to be served. -/
theorem fileRouteTarget_stays_in_temp (rawSegs : List (List Char))
    (name : List Char) (hslash : ∀ s ∈ rawSegs, ∀ c ∈ s, c ≠ '/')
    (h : fileRouteTarget rawSegs = some name) :
    name ≠ [] ∧ (∀ c ∈ name, c ≠ '/') ∧ isSingleDotSeg name = false
      ∧ isDoubleDotSeg name = false ∧ name ≠ ['.']
      ∧ name ≠ "..".toList := by
  rw [fileRouteTarget] at h
  by_cases hemp : ((normalizePathSegs rawSegs).getLastD []).isEmpty = true
  · rw [if_pos hemp] at h
    exact absurd h (by simp)
  · rw [if_neg hemp] at h
    have hfne : (normalizePathSegs rawSegs).getLastD [] ≠ [] := by
      intro hc
      rw [hc] at hemp
      exact hemp rfl
    have hlne : normalizePathSegs rawSegs ≠ [] := by
      intro hc
      rw [hc] at hfne
      simp at hfne
    have hfmem : (normalizePathSegs rawSegs).getLastD []
        ∈ normalizePathSegs rawSegs := by
      rw [List.getLastD_eq_getLast?, List.getLast?_eq_getLast _ hlne]
      exact List.getLast_mem hlne
    rcases normAux_mem rawSegs [] _ hfmem with hc | hc | ⟨hmem, h1, h2⟩
    · exact absurd hc hfne
    · simp at hc
    · have hnos : ∀ c ∈ (normalizePathSegs rawSegs).getLastD [], c ≠ '/' :=
        fun c hc => hslash _ hmem c hc
      have hbn : basenamePosix ((normalizePathSegs rawSegs).getLastD [])
          = (normalizePathSegs rawSegs).getLastD [] :=
        basenamePosix_eq_self _ hnos
      rw [hbn] at h
      cases h
      refine ⟨hfne, hnos, h1, h2, ?_, ?_⟩
      · intro hc
        rw [hc] at h1
        exact absurd h1 (by decide)
      · intro hc
        rw [hc] at h2
        exact absurd h2 (by decide)

/-- Witness for C9: a traversal-laden request path — the URL parser
resolves the dot segments, and the handler serves `passwd` from
directly inside the temp directory, not `/etc/passwd`. -/
theorem fileRouteTarget_stays_in_temp_witness :
    "passwd".toList ≠ []
      ∧ (∀ c ∈ "passwd".toList, c ≠ '/')
      ∧ isSingleDotSeg "passwd".toList = false
      ∧ isDoubleDotSeg "passwd".toList = false
      ∧ "passwd".toList ≠ ['.']
      ∧ "passwd".toList ≠ "..".toList :=
  fileRouteTarget_stays_in_temp
    [[], "api".toList, "file".toList, "..".toList, "..".toList,
      "etc".toList, "passwd".toList]
    "passwd".toList (by decide) (by decide)

end TubeChain
